import Mathlib

/-!
Verification development for the pyosmium area-assembly specification.

The repository tree only ships packaging (`setup.py`) and the example
`examples/amenity_list.py`; the Area Assembly Engine described by the
specification (segment collector, ring assembler, ring classifier,
geometry emitter) lives in the compiled extension and is not part of the
visible sources.  Following the specification §2–§7, those components are
modelled here as executable Lean functions; the example handler is
embedded directly from `examples/amenity_list.py`.
-/

/-- Modelled from the spec: a Coordinate is a (longitude, latitude) pair at
fixed sub-unit precision, represented by scaled integers (§3). -/
abbrev Coord := Int × Int

/-- Modelled from the spec: ring role as an explicit enumerated value
`{Outer, Inner, Unknown}` (§9, "Dynamic/optional role tagging"). -/
inductive Role where
  | outer
  | inner
  | unknown
deriving DecidableEq, Repr

/-- Modelled from the spec: a Segment is an ordered sequence of coordinates
with a declared role (§3). -/
structure Segment where
  coords : List Coord
  role : Role
deriving DecidableEq, Repr

/-- Modelled from the spec: a chain closes when its open endpoint equals its
starting coordinate (§4.2); closure tolerance is exact coordinate equality. -/
def isClosed (chain : List Coord) : Bool :=
  decide (2 ≤ chain.length ∧ chain.head? = chain.getLast?)

/-- Modelled from the spec: try to extend a chain with a segment sharing the
chain's open endpoint, reversing the segment when its far endpoint matches
instead of its near one (§4.2). -/
def attachSegment (chain : List Coord) (s : Segment) : Option (List Coord) :=
  match chain.getLast?, s.coords.head?, s.coords.getLast? with
  | some e, some a, some b =>
    if a = e then some (chain ++ s.coords.tail)
    else if b = e then some (chain ++ s.coords.reverse.tail)
    else none
  | _, _, _ => none

/-- Modelled from the spec: junction tie-break — prefer the segment whose
declared role matches the role of the chain being extended; otherwise
first-collected order (§4.2). -/
def pickNext (chain : List Coord) (role : Role) (remaining : List Segment) :
    Option (Segment × List Coord) :=
  let cands := remaining.filterMap (fun s => (attachSegment chain s).map (fun c => (s, c)))
  match cands.filter (fun p => decide (p.1.role = role)) with
  | p :: _ => some p
  | [] => cands.head?

/-- Modelled from the spec: extend a chain segment-by-segment until it closes
or no unvisited segment shares its open endpoint (§4.2); fuel bounds the
number of extension steps.  Returns the final chain, whether it closed, and
the unconsumed segments. -/
def growChain (fuel : Nat) (chain : List Coord) (role : Role)
    (remaining : List Segment) : List Coord × Bool × List Segment :=
  match fuel with
  | 0 => (chain, isClosed chain, remaining)
  | fuel + 1 =>
    if isClosed chain then (chain, true, remaining)
    else
      match pickNext chain role remaining with
      | some (s, newChain) => growChain fuel newChain role (remaining.erase s)
      | none => (chain, false, remaining)

/-- Modelled from the spec: the Ring Assembler's output — closed rings (each
keeping the declared role of its starting segment), dangling unclosed chains,
and degenerate closed chains (§4.2). -/
structure RingAsm where
  rings : List (List Coord × Role)
  unclosed : List (List Coord)
  degenerate : List (List Coord)
deriving DecidableEq, Repr

/-- Modelled from the spec: the Ring Assembler main loop — repeatedly select
an unvisited segment and grow a chain from it; a closed chain with at least 3
distinct coordinates becomes a ring, a closed chain with fewer is reported as
degenerate, an unclosable chain is reported as unclosed (§4.2). -/
def assembleLoop (fuel : Nat) (remaining : List Segment) (acc : RingAsm) : RingAsm :=
  match fuel with
  | 0 => acc
  | fuel + 1 =>
    match remaining with
    | [] => acc
    | s :: rest =>
      let r := growChain rest.length s.coords s.role rest
      if r.2.1 then
        if 3 ≤ r.1.eraseDups.length then
          assembleLoop fuel r.2.2 { acc with rings := acc.rings ++ [(r.1, s.role)] }
        else
          assembleLoop fuel r.2.2 { acc with degenerate := acc.degenerate ++ [r.1] }
      else
        assembleLoop fuel r.2.2 { acc with unclosed := acc.unclosed ++ [r.1] }

/-- Modelled from the spec: the Ring Assembler — links segments sharing
endpoint coordinates into closed rings (§4.2). -/
def assembleRings (segs : List Segment) : RingAsm :=
  assembleLoop segs.length segs ⟨[], [], []⟩

/-- Modelled from the spec: twice the signed area of a ring via the shoelace
formula (§4.3 step 1). -/
def shoelace : List Coord → Int
  | (x1, y1) :: (x2, y2) :: rest => (x1 * y2 - x2 * y1) + shoelace ((x2, y2) :: rest)
  | _ => 0

/-- Modelled from the spec: one edge of the ray-casting point-in-polygon test,
with the semi-open vertical rule as tie-break for boundary-coincident rays
(§4.3 step 2). -/
def edgeCrosses (p a b : Coord) : Bool :=
  if (decide (a.2 ≤ p.2)) = (decide (b.2 ≤ p.2)) then false
  else
    let cr := (b.1 - a.1) * (p.2 - a.2) - (p.1 - a.1) * (b.2 - a.2)
    if a.2 ≤ p.2 then decide (0 < cr) else decide (cr < 0)

/-- Modelled from the spec: count ray crossings along consecutive ring edges
(§4.3 step 2). -/
def crossCount (p : Coord) : List Coord → Nat
  | a :: b :: rest => (if edgeCrosses p a b then 1 else 0) + crossCount p (b :: rest)
  | _ => 0

/-- Modelled from the spec: point-in-polygon by ray casting — the point is
inside when the crossing count is odd (§4.3 step 2). -/
def pointInRing (p : Coord) (ring : List Coord) : Bool :=
  decide (crossCount p ring % 2 = 1)

/-- Modelled from the spec: ring `s` contains ring `r` when `s`'s boundary
strictly contains a representative point (first vertex) of `r` (§4.3 step 2). -/
def ringHolds (s r : List Coord) : Bool :=
  pointInRing (r.headD (0, 0)) s

/-- Modelled from the spec: nesting depth of a ring — the number of other
rings whose boundary contains its representative point (§4.3 step 2). -/
def nestingDepth (rs : List (List Coord)) (r : List Coord) : Nat :=
  (rs.filter (fun s => decide (s ≠ r) && ringHolds s r)).length

/-- Modelled from the spec: computed geometric role — even nesting depth is
outer, odd is inner (§4.3 step 2, re-flattening every even level as outer). -/
def computedRole (rs : List (List Coord)) (r : List Coord) : Role :=
  if nestingDepth rs r % 2 = 0 then Role.outer else Role.inner

/-- Modelled from the spec: ambiguous nesting — two distinct rings mutually
claim containment (§4.3 output, §7 AmbiguousNesting). -/
def hasAmbiguousNesting (rs : List (List Coord)) : Bool :=
  rs.any (fun r => rs.any (fun s => decide (r ≠ s) && ringHolds r s && ringHolds s r))

/-- Modelled from the spec: force a ring counterclockwise (positive shoelace),
the canonical winding for outer rings (§4.3 step 4). -/
def makeCCW (r : List Coord) : List Coord :=
  if 0 ≤ shoelace r then r else r.reverse

/-- Modelled from the spec: force a ring clockwise (non-positive shoelace),
the canonical winding for inner rings (§4.3 step 4). -/
def makeCW (r : List Coord) : List Coord :=
  if shoelace r ≤ 0 then r else r.reverse

/-- Modelled from the spec: error taxonomy of the engine (§7). -/
inductive AreaError where
  | unresolvableReference
  | unclosedRing
  | degenerateRing
  | ambiguousNesting
  | roleMismatch
  | noOuterRings
deriving DecidableEq, Repr

/-- Modelled from the spec: the final Area — outer rings each mapped to the
inner rings they contain (§3). -/
structure ClassifiedArea where
  polys : List (List Coord × List (List Coord))
deriving DecidableEq, Repr

/-- Modelled from the spec: the rings of even nesting depth are the outer
rings (§4.3 step 2). -/
def outerRings (rs : List (List Coord)) : List (List Coord) :=
  rs.filter (fun r => decide (nestingDepth rs r % 2 = 0))

/-- Modelled from the spec: the rings of odd nesting depth are the inner
rings (§4.3 step 2). -/
def innerRings (rs : List (List Coord)) : List (List Coord) :=
  rs.filter (fun r => decide (nestingDepth rs r % 2 = 1))

/-- Modelled from the spec: the inner rings directly contained by a given
outer ring, winding-normalized (§4.3 steps 2 and 4). -/
def holesOf (rs : List (List Coord)) (o : List Coord) : List (List Coord) :=
  ((innerRings rs).filter (fun i =>
    ringHolds o i && decide (nestingDepth rs i = nestingDepth rs o + 1))).map makeCW

/-- Modelled from the spec: the Ring Classifier on bare coordinate rings —
fails on ambiguous nesting, fails when no outer ring remains, otherwise
groups each directly-contained inner ring under its enclosing outer ring and
normalizes winding (§4.3). -/
def classifyCoords (rs : List (List Coord)) : Except AreaError ClassifiedArea :=
  if hasAmbiguousNesting rs then Except.error AreaError.ambiguousNesting
  else if (outerRings rs).isEmpty then Except.error AreaError.noOuterRings
  else Except.ok ⟨(outerRings rs).map (fun o => (makeCCW o, holesOf rs o))⟩

/-- Modelled from the spec: the Ring Classifier — geometric nesting alone
determines the grouping; declared roles are never consulted (§4.3 step 3). -/
def classifyRings (ringsR : List (List Coord × Role)) : Except AreaError ClassifiedArea :=
  classifyCoords (ringsR.map Prod.fst)

/-- Modelled from the spec: role-mismatch warnings — one warning per ring
whose declared role is known and disagrees with the computed geometric role
(§4.3 step 3, §7 RoleMismatch). -/
def roleWarnings (ringsR : List (List Coord × Role)) : List AreaError :=
  ringsR.filterMap (fun p =>
    if p.2 ≠ Role.unknown ∧ p.2 ≠ computedRole (ringsR.map Prod.fst) p.1
    then some AreaError.roleMismatch else none)

/-- Modelled from the spec: the Assembly Result — either a completed Area or
a structured failure, always carrying the aggregated non-fatal diagnostics
(§3, §7 propagation policy). -/
structure AssemblyResult where
  area : Option ClassifiedArea
  fatal : Option AreaError
  warnings : List AreaError
deriving DecidableEq, Repr

/-- Modelled from the spec: the whole area-assembly pipeline on collected
segments — assemble rings, aggregate local diagnostics, classify; only
classifier errors are fatal (§4, §7). -/
def assembleArea (segs : List Segment) : AssemblyResult :=
  let asm := assembleRings segs
  let warns := asm.unclosed.map (fun _ => AreaError.unclosedRing)
    ++ asm.degenerate.map (fun _ => AreaError.degenerateRing)
    ++ roleWarnings asm.rings
  match classifyRings asm.rings with
  | Except.error e => { area := none, fatal := some e, warnings := warns }
  | Except.ok a => { area := some a, fatal := none, warnings := warns }

/-- Modelled from the spec: little-endian base-256 encoding of a natural
number on a fixed number of bytes (WKB-style binary encoding, §4.4, glossary). -/
def natToLE : Nat → Nat → List Nat
  | 0, _ => []
  | k + 1, n => n % 256 :: natToLE k (n / 256)

/-- Modelled from the spec: read back a little-endian base-256 byte list. -/
def leToNat : List Nat → Nat
  | [] => 0
  | b :: bs => b + 256 * leToNat bs

/-- Modelled from the spec: a 4-byte unsigned count field of the binary
geometry encoding (§4.4). -/
def encU32 (n : Nat) : List Nat := natToLE 4 n

/-- Modelled from the spec: an 8-byte two's-complement coordinate component
of the binary geometry encoding (§4.4). -/
def encInt (i : Int) : List Nat := natToLE 8 (Int.toNat (i % (2 ^ 64 : Int)))

/-- Modelled from the spec: decode an 8-byte two's-complement integer. -/
def decInt (bs : List Nat) : Int :=
  let n := leToNat bs
  if n < 2 ^ 63 then (n : Int) else (n : Int) - 2 ^ 64

/-- Modelled from the spec: encode one coordinate pair (§4.4). -/
def encCoord (c : Coord) : List Nat := encInt c.1 ++ encInt c.2

/-- Modelled from the spec: encode one ring as a point count followed by its
coordinates (§4.4). -/
def encRing (r : List Coord) : List Nat := encU32 r.length ++ (r.map encCoord).flatten

/-- Modelled from the spec: encode one polygon as its ring count followed by
the outer ring and then its inner rings (§4.4). -/
def encPoly (p : List Coord × List (List Coord)) : List Nat :=
  encU32 (p.2.length + 1) ++ encRing p.1 ++ (p.2.map encRing).flatten

/-- Modelled from the spec: the canonical binary multipolygon payload — byte
order marker, geometry type 6 (multipolygon), polygon count, polygons (§4.4). -/
def encodeArea (a : ClassifiedArea) : List Nat :=
  1 :: encU32 6 ++ encU32 a.polys.length ++ (a.polys.map encPoly).flatten

/-- Modelled from the spec: the Geometry Emitter — serializes a classified
Area, failing when it contains zero outer rings (§4.4). -/
def emitClassified (a : ClassifiedArea) : Option (List Nat) :=
  if a.polys.isEmpty then none else some (encodeArea a)

/-- Modelled from the spec: emitted geometry of an Assembly Result — present
only when assembly produced an Area the emitter accepts (§4.4, §6). -/
def emitGeometry (r : AssemblyResult) : Option (List Nat) :=
  r.area.bind emitClassified

/-- Modelled from the spec: consume exactly `k` bytes of the payload. -/
def readN (k : Nat) (l : List Nat) : Option (List Nat × List Nat) :=
  if k ≤ l.length then some (l.take k, l.drop k) else none

/-- Modelled from the spec: parse a 4-byte count field. -/
def parseU32 (l : List Nat) : Option (Nat × List Nat) := do
  let (b, rest) ← readN 4 l
  some (leToNat b, rest)

/-- Modelled from the spec: parse one coordinate pair. -/
def parseCoord (l : List Nat) : Option (Coord × List Nat) := do
  let (bx, l1) ← readN 8 l
  let (by2, l2) ← readN 8 l1
  some ((decInt bx, decInt by2), l2)

/-- Modelled from the spec: parse `n` coordinate pairs. -/
def parseCoords : Nat → List Nat → Option (List Coord × List Nat)
  | 0, l => some ([], l)
  | n + 1, l => do
    let (c, l1) ← parseCoord l
    let (cs, l2) ← parseCoords n l1
    some (c :: cs, l2)

/-- Modelled from the spec: parse one ring (point count, then points). -/
def parseRing (l : List Nat) : Option (List Coord × List Nat) := do
  let (n, l1) ← parseU32 l
  parseCoords n l1

/-- Modelled from the spec: parse `n` rings. -/
def parseRings : Nat → List Nat → Option (List (List Coord) × List Nat)
  | 0, l => some ([], l)
  | n + 1, l => do
    let (r, l1) ← parseRing l
    let (rs, l2) ← parseRings n l1
    some (r :: rs, l2)

/-- Modelled from the spec: parse one polygon (ring count ≥ 1, outer ring,
then inner rings). -/
def parsePoly (l : List Nat) : Option ((List Coord × List (List Coord)) × List Nat) := do
  let (nr, l1) ← parseU32 l
  match nr with
  | 0 => none
  | m + 1 => do
    let (outer, l2) ← parseRing l1
    let (inners, l3) ← parseRings m l2
    some ((outer, inners), l3)

/-- Modelled from the spec: parse `n` polygons. -/
def parsePolys : Nat → List Nat → Option (List (List Coord × List (List Coord)) × List Nat)
  | 0, l => some ([], l)
  | n + 1, l => do
    let (p, l1) ← parsePoly l
    let (ps, l2) ← parsePolys n l1
    some (p :: ps, l2)

/-- Modelled from the spec: decode a canonical binary multipolygon payload
back into its ring coordinate structure (§4.4 round-trip). -/
def decodeArea (l : List Nat) : Option (List (List Coord × List (List Coord))) := do
  let (m, l0) ← readN 1 l
  if m = [1] then
    let (t, l1) ← parseU32 l0
    if t = 6 then
      let (np, l2) ← parseU32 l1
      let (ps, l3) ← parsePolys np l2
      if l3.isEmpty then some ps else none
    else none
  else none

/-- Modelled from the spec: a coordinate component fits the 8-byte
two's-complement field (§3 Coordinate invariant: valid geodetic range). -/
def coordOK (c : Coord) : Prop :=
  -(2 ^ 63) ≤ c.1 ∧ c.1 < 2 ^ 63 ∧ -(2 ^ 63) ≤ c.2 ∧ c.2 < 2 ^ 63

/-- Modelled from the spec: a ring fits the encoding's count and coordinate
fields. -/
def ringOK (r : List Coord) : Prop :=
  r.length < 2 ^ 32 ∧ ∀ c ∈ r, coordOK c

/-- Modelled from the spec: a polygon fits the encoding's fields. -/
def polyOK (p : List Coord × List (List Coord)) : Prop :=
  ringOK p.1 ∧ p.2.length + 1 < 2 ^ 32 ∧ ∀ r ∈ p.2, ringOK r

/-- Modelled from the spec: an Area fits the encoding's fields. -/
def areaOK (a : ClassifiedArea) : Prop :=
  a.polys.length < 2 ^ 32 ∧ ∀ p ∈ a.polys, polyOK p

/-- Modelled from the spec: resolve every node identifier of a way through
the external location index (§4.1, §6). -/
def resolveAll (idx : Nat → Option Coord) : List Nat → Option (List Coord)
  | [] => some []
  | n :: rest =>
    match idx n, resolveAll idx rest with
    | some c, some cs => some (c :: cs)
    | _, _ => none

/-- Modelled from the spec: the Segment Collector's output — resolved
segments plus incomplete-segment markers (§4.1). -/
structure CollectResult where
  segments : List Segment
  incomplete : List (List Nat)
deriving DecidableEq, Repr

/-- Modelled from the spec: the Segment Collector — a member way with an
unresolvable node is marked incomplete rather than discarded; fully resolved
members become segments (§4.1, §7 UnresolvableReference). -/
def collectSegments (idx : Nat → Option Coord)
    (members : List (List Nat × Role)) : CollectResult :=
  match members with
  | [] => ⟨[], []⟩
  | (way, role) :: rest =>
    let acc := collectSegments idx rest
    match resolveAll idx way with
    | some coords => { acc with segments := ⟨coords, role⟩ :: acc.segments }
    | none => { acc with incomplete := way :: acc.incomplete }

/-- Modelled from the spec: assembly of a whole relation — collect member
segments, assemble the area, and report one UnresolvableReference warning per
incomplete member (§4.1, §7). -/
def assembleRelation (idx : Nat → Option Coord)
    (members : List (List Nat × Role)) : AssemblyResult :=
  let col := collectSegments idx members
  let res := assembleArea col.segments
  { res with warnings :=
      col.incomplete.map (fun _ => AreaError.unresolvableReference) ++ res.warnings }

/-- Embedded from `examples/amenity_list.py`: lookup of a tag key in an OSM
tag list (first match), the model of Python's dict access on `tags`. -/
def tagsGet (tags : List (String × String)) (key : String) : Option String :=
  (tags.find? (fun p => decide (p.1 = key))).map Prod.snd

/-- Embedded from `examples/amenity_list.py`: a Python call either returns a
value or raises `KeyError key`. -/
inductive PyResult (α : Type) where
  | ok (a : α)
  | keyError (key : String)
deriving DecidableEq, Repr

/-- Embedded from `examples/amenity_list.py` lines 20–22:
`name = tags.get('name', '')` never fails and defaults to the empty string,
while `tags['amenity']` raises `KeyError` when the key is absent.  The
printed line is modelled as the tuple of its interpolated values. -/
def print_amenity (tags : List (String × String)) (lon lat : Int) :
    PyResult (Int × Int × String × String) :=
  let name := (tagsGet tags "name").getD ""
  match tagsGet tags "amenity" with
  | some am => PyResult.ok (lon, lat, am, name)
  | none => PyResult.keyError "amenity"

/-- Two open segments of the specification's concrete single-ring scenario. -/
def demoSeg1 : Segment := ⟨[(0, 0), (0, 1), (1, 1)], Role.outer⟩

/-- Second segment of the concrete single-ring scenario. -/
def demoSeg2 : Segment := ⟨[(1, 1), (1, 0), (0, 0)], Role.outer⟩

/-- The ring the concrete scenario expects. -/
def demoRing : List Coord := [(0, 0), (0, 1), (1, 1), (1, 0), (0, 0)]

/-- Closed square way used by the role-mismatch scenario. -/
def sqSeg : Segment := ⟨[(0, 0), (10, 0), (10, 10), (0, 10), (0, 0)], Role.outer⟩

/-- Closed triangle way inside the square, declared role `inner`. -/
def triSeg : Segment := ⟨[(2, 2), (5, 2), (2, 5), (2, 2)], Role.inner⟩

/-- The same triangle with its declared role swapped to `outer`. -/
def triSegO : Segment := ⟨[(2, 2), (5, 2), (2, 5), (2, 2)], Role.outer⟩

/-- First of two mutually containing rings (malformed input). -/
def ambA : Segment := ⟨[(0, 0), (4, 0), (4, 4), (0, 4), (0, 0)], Role.outer⟩

/-- Second mutually containing ring: covers `[-2,2]²` and starts at `(2,2)`,
which lies inside `ambA`, while `ambA` starts at `(0,0)`, inside this ring. -/
def ambB : Segment := ⟨[(2, 2), (-2, 2), (-2, -2), (2, -2), (2, 2)], Role.outer⟩

/-- Closed unit square way. -/
def sqC : Segment := ⟨[(0, 0), (1, 0), (1, 1), (0, 1), (0, 0)], Role.outer⟩

/-- A dangling chain that never closes. -/
def openSeg : Segment := ⟨[(5, 5), (6, 5), (6, 6)], Role.outer⟩

/-- A location index that only resolves node 0. -/
def demoIdx : Nat → Option Coord := fun n => if n = 0 then some (0, 0) else none

theorem classifyCoords_error {rs : List (List Coord)} {e : AreaError}
    (h : classifyCoords rs = Except.error e) :
    e = AreaError.ambiguousNesting ∨ e = AreaError.noOuterRings := by
  unfold classifyCoords at h
  split at h
  · simp only [Except.error.injEq] at h
    exact Or.inl h.symm
  · split at h
    · simp only [Except.error.injEq] at h
      exact Or.inr h.symm
    · exact absurd h (by simp)

theorem assembleArea_warnings (segs : List Segment) :
    (assembleArea segs).warnings =
      (assembleRings segs).unclosed.map (fun _ => AreaError.unclosedRing)
        ++ (assembleRings segs).degenerate.map (fun _ => AreaError.degenerateRing)
        ++ roleWarnings (assembleRings segs).rings := by
  unfold assembleArea
  cases h : classifyRings (assembleRings segs).rings <;> simp [h]

/-- C2: the emitter and the whole assembly pipeline are deterministic — on
byte-identical (equal) inputs the emitted binary geometry payloads are equal;
in particular running assembly twice on the same segment list yields the same
payload. -/
theorem claim2_deterministic_emission :
    ∀ segs1 segs2 : List Segment, segs1 = segs2 →
      emitGeometry (assembleArea segs1) = emitGeometry (assembleArea segs2) := by
  intro segs1 segs2 h
  rw [h]

theorem claim2_witness :
    emitGeometry (assembleArea [sqC]) = emitGeometry (assembleArea [sqC]) :=
  claim2_deterministic_emission [sqC] [sqC] rfl

/-- C4: whenever the assembled rings contain two rings that mutually claim
containment, the whole area assembly fails with an AmbiguousNesting error and
no geometry is emitted for that area. -/
theorem claim4_ambiguous_nesting_fatal :
    ∀ segs : List Segment,
      hasAmbiguousNesting ((assembleRings segs).rings.map Prod.fst) = true →
      (assembleArea segs).fatal = some AreaError.ambiguousNesting
        ∧ (assembleArea segs).area = none
        ∧ emitGeometry (assembleArea segs) = none := by
  intro segs h
  have hc : classifyRings (assembleRings segs).rings =
      Except.error AreaError.ambiguousNesting := by
    unfold classifyRings classifyCoords
    rw [if_pos h]
  refine ⟨?_, ?_, ?_⟩ <;> simp [assembleArea, hc, emitGeometry]

theorem claim4_witness :
    (assembleArea [ambA, ambB]).fatal = some AreaError.ambiguousNesting
      ∧ (assembleArea [ambA, ambB]).area = none
      ∧ emitGeometry (assembleArea [ambA, ambB]) = none :=
  claim4_ambiguous_nesting_fatal [ambA, ambB] (by decide)

/-- C8: the Geometry Emitter fails for every Area with zero outer rings, the
only fatal assembly errors are AmbiguousNesting and the zero-outer-rings
case, and local structural diagnostics (unclosed chains, degenerate rings,
role mismatches) are aggregated into the Assembly Result's warnings. -/
theorem claim8_fatal_errors :
    (∀ a : ClassifiedArea, a.polys = [] → emitClassified a = none)
    ∧ (∀ (segs : List Segment) (e : AreaError),
        (assembleArea segs).fatal = some e →
        e = AreaError.ambiguousNesting ∨ e = AreaError.noOuterRings)
    ∧ (∀ segs : List Segment,
        (assembleArea segs).warnings =
          (assembleRings segs).unclosed.map (fun _ => AreaError.unclosedRing)
            ++ (assembleRings segs).degenerate.map (fun _ => AreaError.degenerateRing)
            ++ roleWarnings (assembleRings segs).rings) := by
  refine ⟨?_, ?_, assembleArea_warnings⟩
  · intro a h
    simp [emitClassified, h]
  · intro segs e h
    unfold assembleArea at h
    cases hc : classifyRings (assembleRings segs).rings with
    | error e2 =>
      simp [hc] at h
      exact h ▸ classifyCoords_error hc
    | ok a => simp [hc] at h

theorem claim8_witness :
    emitClassified ⟨[]⟩ = none
      ∧ (AreaError.ambiguousNesting = AreaError.ambiguousNesting
         ∨ AreaError.ambiguousNesting = AreaError.noOuterRings) :=
  ⟨claim8_fatal_errors.1 ⟨[]⟩ rfl,
   claim8_fatal_errors.2.1 [ambA, ambB] AreaError.ambiguousNesting (by decide)⟩

/-- C10: in the example AmenityListHandler, a missing `name` key prints the
empty string in its place, a missing `amenity` key raises KeyError, and the
handler is safe exactly under the KeyFilter precondition that an `amenity`
tag is present. -/
theorem claim10_amenity_handler :
    ∀ (tags : List (String × String)) (lon lat : Int),
      (tagsGet tags "amenity" = none →
        print_amenity tags lon lat = PyResult.keyError "amenity")
      ∧ (∀ am, tagsGet tags "amenity" = some am → tagsGet tags "name" = none →
          print_amenity tags lon lat = PyResult.ok (lon, lat, am, ""))
      ∧ (tagsGet tags "amenity" ≠ none →
          ∃ v, print_amenity tags lon lat = PyResult.ok v) := by
  intro tags lon lat
  refine ⟨?_, ?_, ?_⟩
  · intro h
    simp [print_amenity, h]
  · intro am h1 h2
    simp [print_amenity, h1, h2]
  · intro h
    cases ha : tagsGet tags "amenity" with
    | none => exact absurd ha h
    | some am =>
      exact ⟨(lon, lat, am, (tagsGet tags "name").getD ""), by simp [print_amenity, ha]⟩

theorem claim10_witness :
    print_amenity [("amenity", "cafe")] 1 2 = PyResult.ok (1, 2, "cafe", "") :=
  (claim10_amenity_handler [("amenity", "cafe")] 1 2).2.1 "cafe" rfl rfl

theorem resolveAll_eq_none {idx : Nat → Option Coord} {way : List Nat}
    (h : ∃ n ∈ way, idx n = none) : resolveAll idx way = none := by
  induction way with
  | nil => simp at h
  | cons m rest ih =>
    obtain ⟨n, hn, hnone⟩ := h
    rcases List.mem_cons.mp hn with h1 | h1
    · subst h1
      simp [resolveAll, hnone]
    · rw [resolveAll, ih ⟨n, h1, hnone⟩]
      cases idx m <;> rfl

theorem collectSegments_incomplete {idx : Nat → Option Coord}
    {members : List (List Nat × Role)} {way : List Nat} {role : Role}
    (hmem : (way, role) ∈ members) (h : ∃ n ∈ way, idx n = none) :
    way ∈ (collectSegments idx members).incomplete := by
  induction members with
  | nil => simp at hmem
  | cons m rest ih =>
    rcases List.mem_cons.mp hmem with h1 | h1
    · rw [collectSegments, ← h1]
      rw [resolveAll_eq_none h]
      exact List.mem_cons_self _ _
    · rw [collectSegments]
      obtain ⟨w, r⟩ := m
      cases hr : resolveAll idx w
      · exact List.mem_cons_of_mem _ (ih h1)
      · exact ih h1

/-- C9: a member way with a node the location index cannot resolve is marked
incomplete rather than discarded, the incompleteness is reported as an
UnresolvableReference diagnostic, and the whole-area assembly is not aborted
(its fatal status is exactly the one of assembling the resolved segments). -/
theorem claim9_unresolvable_degrades :
    ∀ (idx : Nat → Option Coord) (members : List (List Nat × Role))
      (way : List Nat) (role : Role),
      (way, role) ∈ members → (∃ n ∈ way, idx n = none) →
      way ∈ (collectSegments idx members).incomplete
        ∧ AreaError.unresolvableReference ∈ (assembleRelation idx members).warnings
        ∧ (assembleRelation idx members).fatal
            = (assembleArea (collectSegments idx members).segments).fatal := by
  intro idx members way role hmem h
  have hinc := collectSegments_incomplete hmem h
  refine ⟨hinc, ?_, rfl⟩
  unfold assembleRelation
  exact List.mem_append_left _ (List.mem_map_of_mem _ hinc)

theorem claim9_witness :
    [0, 5] ∈ (collectSegments demoIdx [([0, 5], Role.outer)]).incomplete
      ∧ AreaError.unresolvableReference
          ∈ (assembleRelation demoIdx [([0, 5], Role.outer)]).warnings
      ∧ (assembleRelation demoIdx [([0, 5], Role.outer)]).fatal
          = (assembleArea (collectSegments demoIdx [([0, 5], Role.outer)]).segments).fatal :=
  claim9_unresolvable_degrades demoIdx [([0, 5], Role.outer)] [0, 5] Role.outer
    (by simp) ⟨5, by simp, by simp [demoIdx]⟩

/-- C5: when at least one segment chain never closes, the Assembly Result
carries an UnclosedRing diagnostic, while the area is still computed from
exactly the rings that did close (partial success); concretely, a closed unit
square next to a dangling chain still yields the square as the area together
with the UnclosedRing diagnostic. -/
theorem claim5_unclosed_partial_success :
    (∀ segs : List Segment,
      (assembleRings segs).unclosed ≠ [] →
      AreaError.unclosedRing ∈ (assembleArea segs).warnings
        ∧ (assembleArea segs).area
            = (classifyRings (assembleRings segs).rings).toOption)
    ∧ (assembleArea [sqC, openSeg]).area
        = some ⟨[([(0, 0), (1, 0), (1, 1), (0, 1), (0, 0)], [])]⟩
    ∧ AreaError.unclosedRing ∈ (assembleArea [sqC, openSeg]).warnings := by
  refine ⟨?_, by decide, by decide⟩
  intro segs h
  constructor
  · rw [assembleArea_warnings]
    refine List.mem_append_left _ (List.mem_append_left _ ?_)
    cases hu : (assembleRings segs).unclosed with
    | nil => exact absurd hu h
    | cons c rest => simp
  · unfold assembleArea
    cases hc : classifyRings (assembleRings segs).rings <;> simp [hc, Except.toOption]

theorem claim5_witness :
    AreaError.unclosedRing ∈ (assembleArea [sqC, openSeg]).warnings
      ∧ (assembleArea [sqC, openSeg]).area
          = (classifyRings (assembleRings [sqC, openSeg]).rings).toOption :=
  claim5_unclosed_partial_success.1 [sqC, openSeg] (by decide)

/-- C3: the computed geometric nesting alone determines the outer/inner
grouping (declared roles never change the classification), a known declared
role that disagrees with the computed one is reported as a RoleMismatch
warning, and the conflict is not fatal; concretely, a square with an inner
triangle yields the same Area whether the triangle is declared `inner` or
`outer`, the latter adding a RoleMismatch warning. -/
theorem claim3_nesting_wins :
    (∀ ringsR ringsR' : List (List Coord × Role),
      ringsR.map Prod.fst = ringsR'.map Prod.fst →
      classifyRings ringsR = classifyRings ringsR')
    ∧ (∀ (ringsR : List (List Coord × Role)) (p : List Coord × Role),
        p ∈ ringsR → p.2 ≠ Role.unknown →
        p.2 ≠ computedRole (ringsR.map Prod.fst) p.1 →
        AreaError.roleMismatch ∈ roleWarnings ringsR)
    ∧ (assembleArea [sqSeg, triSeg]).area = (assembleArea [sqSeg, triSegO]).area
    ∧ (assembleArea [sqSeg, triSeg]).area
        = some ⟨[([(0, 0), (10, 0), (10, 10), (0, 10), (0, 0)],
                  [[(2, 2), (2, 5), (5, 2), (2, 2)]])]⟩
    ∧ AreaError.roleMismatch ∈ (assembleArea [sqSeg, triSegO]).warnings
    ∧ AreaError.roleMismatch ∉ (assembleArea [sqSeg, triSeg]).warnings
    ∧ (assembleArea [sqSeg, triSegO]).fatal = none := by
  refine ⟨?_, ?_, by decide, by decide, by decide, by decide, by decide⟩
  · intro ringsR ringsR' h
    unfold classifyRings
    rw [h]
  · intro ringsR p hp h1 h2
    refine List.mem_filterMap.mpr ⟨p, hp, ?_⟩
    rw [if_pos ⟨h1, h2⟩]

theorem claim3_witness :
    classifyRings [([(0, 0), (10, 0), (10, 10), (0, 10), (0, 0)], Role.inner)]
      = classifyRings [([(0, 0), (10, 0), (10, 10), (0, 10), (0, 0)], Role.outer)] :=
  claim3_nesting_wins.1 _ _ rfl

theorem nestingDepth_singleton (c : List Coord) : nestingDepth [c] c = 0 := by
  simp [nestingDepth]

theorem classifyCoords_singleton (c : List Coord) :
    classifyCoords [c] = Except.ok ⟨[(makeCCW c, [])]⟩ := by
  unfold classifyCoords
  rw [if_neg (by simp [hasAmbiguousNesting])]
  rw [if_neg (by simp [outerRings, nestingDepth_singleton])]
  simp [outerRings, innerRings, holesOf, nestingDepth_singleton]

theorem assembleRings_single (s : Segment) (h1 : isClosed s.coords = true)
    (h2 : 3 ≤ s.coords.eraseDups.length) :
    assembleRings [s] = ⟨[(s.coords, s.role)], [], []⟩ := by
  unfold assembleRings assembleLoop growChain
  simp [h1, h2, assembleLoop]

/-- C1: a valid closed single way tagged as an area assembles into exactly
one outer ring with zero inner rings; in particular, the two segments
`(0,0)-(0,1)-(1,1)` and `(1,1)-(1,0)-(0,0)`, both role outer, assemble into
the single closed ring `(0,0),(0,1),(1,1),(1,0),(0,0)` classified as one
outer ring with no inner rings. -/
theorem claim1_single_way_one_outer :
    (∀ s : Segment, isClosed s.coords = true → 3 ≤ s.coords.eraseDups.length →
      (assembleArea [s]).area = some ⟨[(makeCCW s.coords, [])]⟩
        ∧ (assembleArea [s]).fatal = none)
    ∧ (assembleRings [demoSeg1, demoSeg2]).rings = [(demoRing, Role.outer)]
    ∧ (assembleArea [demoSeg1, demoSeg2]).area = some ⟨[(makeCCW demoRing, [])]⟩
    ∧ (assembleArea [demoSeg1, demoSeg2]).fatal = none := by
  refine ⟨?_, by decide, by decide, by decide⟩
  intro s h1 h2
  have hasm := assembleRings_single s h1 h2
  unfold assembleArea
  rw [hasm]
  have hc : classifyRings [(s.coords, s.role)] = Except.ok ⟨[(makeCCW s.coords, [])]⟩ := by
    unfold classifyRings
    simpa using classifyCoords_singleton s.coords
  simp [hc]

theorem claim1_witness :
    (assembleArea [sqC]).area = some ⟨[(makeCCW sqC.coords, [])]⟩
      ∧ (assembleArea [sqC]).fatal = none :=
  claim1_single_way_one_outer.1 sqC (by decide) (by decide)

theorem growChain_closed (fuel : Nat) (chain : List Coord) (role : Role)
    (remaining : List Segment)
    (h : (growChain fuel chain role remaining).2.1 = true) :
    isClosed (growChain fuel chain role remaining).1 = true := by
  induction fuel generalizing chain remaining with
  | zero => exact h
  | succ n ih =>
    rw [growChain] at h ⊢
    by_cases hc : isClosed chain = true
    · rw [if_pos hc] at h ⊢
      exact hc
    · rw [if_neg hc] at h ⊢
      cases hp : pickNext chain role remaining with
      | none =>
        rw [hp] at h
        simp at h
      | some pr =>
        obtain ⟨s, newChain⟩ := pr
        rw [hp] at h
        exact ih _ _ h

theorem assembleLoop_invariant (fuel : Nat) (remaining : List Segment) (acc : RingAsm)
    (hr : ∀ p ∈ acc.rings, isClosed p.1 = true ∧ 3 ≤ p.1.eraseDups.length)
    (hd : ∀ d ∈ acc.degenerate, isClosed d = true ∧ d.eraseDups.length < 3) :
    (∀ p ∈ (assembleLoop fuel remaining acc).rings,
      isClosed p.1 = true ∧ 3 ≤ p.1.eraseDups.length)
    ∧ (∀ d ∈ (assembleLoop fuel remaining acc).degenerate,
      isClosed d = true ∧ d.eraseDups.length < 3) := by
  induction fuel generalizing remaining acc with
  | zero => exact ⟨hr, hd⟩
  | succ n ih =>
    cases remaining with
    | nil =>
      rw [assembleLoop]
      exact ⟨hr, hd⟩
    | cons s rest =>
      rw [assembleLoop]
      by_cases hcl : (growChain rest.length s.coords s.role rest).2.1 = true
      · by_cases hlen : 3 ≤ (growChain rest.length s.coords s.role rest).1.eraseDups.length
        · rw [if_pos hcl, if_pos hlen]
          refine ih _ _ ?_ hd
          intro p hp
          rcases List.mem_append.mp hp with h1 | h1
          · exact hr p h1
          · rcases List.mem_singleton.mp h1 with rfl
            exact ⟨growChain_closed _ _ _ _ hcl, hlen⟩
        · rw [if_pos hcl, if_neg hlen]
          refine ih _ _ hr ?_
          intro d hdm
          rcases List.mem_append.mp hdm with h1 | h1
          · exact hd d h1
          · rcases List.mem_singleton.mp h1 with rfl
            exact ⟨growChain_closed _ _ _ _ hcl, by omega⟩
      · rw [if_neg hcl]
        exact ih _ _ hr hd

/-- C6: every ring produced by the Ring Assembler is closed (its first
coordinate equals its last) and has at least 3 distinct coordinates, while
every closed chain with fewer than 3 distinct coordinates is reported in the
degenerate-ring diagnostics instead of the ring output. -/
theorem claim6_ring_invariant :
    ∀ segs : List Segment,
      (∀ p ∈ (assembleRings segs).rings,
        p.1.head? = p.1.getLast? ∧ 2 ≤ p.1.length ∧ 3 ≤ p.1.eraseDups.length)
      ∧ (∀ d ∈ (assembleRings segs).degenerate,
        isClosed d = true ∧ d.eraseDups.length < 3) := by
  intro segs
  have h := assembleLoop_invariant segs.length segs ⟨[], [], []⟩ (by simp) (by simp)
  refine ⟨?_, h.2⟩
  intro p hp
  obtain ⟨hc, hlen⟩ := h.1 p hp
  have := of_decide_eq_true hc
  exact ⟨this.2, this.1, hlen⟩

theorem claim6_witness :
    demoRing.head? = demoRing.getLast?
      ∧ 2 ≤ demoRing.length ∧ 3 ≤ demoRing.eraseDups.length :=
  (claim6_ring_invariant [demoSeg1, demoSeg2]).1 (demoRing, Role.outer) (by decide)

theorem natToLE_length (k n : Nat) : (natToLE k n).length = k := by
  induction k generalizing n with
  | zero => rfl
  | succ m ih => simp [natToLE, ih]

theorem leToNat_natToLE (k n : Nat) : leToNat (natToLE k n) = n % 256 ^ k := by
  induction k generalizing n with
  | zero => simp [natToLE, leToNat, Nat.mod_one]
  | succ m ih =>
    rw [natToLE, leToNat, ih, pow_succ', Nat.mod_mul]

theorem decInt_encInt (i : Int) (h1 : -(2 ^ 63) ≤ i) (h2 : i < 2 ^ 63) :
    decInt (encInt i) = i := by
  rw [decInt, encInt, leToNat_natToLE]
  have h256 : (256 : Nat) ^ 8 = 2 ^ 64 := by norm_num
  rw [h256]
  split <;> omega

theorem readN_of_length {a : List Nat} {k : Nat} (r : List Nat) (h : a.length = k) :
    readN k (a ++ r) = some (a, r) := by
  subst h
  rw [readN, if_pos (by simp), List.take_left, List.drop_left]

theorem encInt_length (i : Int) : (encInt i).length = 8 :=
  natToLE_length 8 _

theorem parseU32_encU32 (n : Nat) (rest : List Nat) (h : n < 2 ^ 32) :
    parseU32 (encU32 n ++ rest) = some (n, rest) := by
  rw [parseU32, encU32, readN_of_length rest (natToLE_length 4 n)]
  have hn : n % 256 ^ 4 = n := Nat.mod_eq_of_lt (lt_of_lt_of_le h (by norm_num))
  simp [leToNat_natToLE, hn]
  omega

theorem parseCoord_encCoord (c : Coord) (rest : List Nat) (h : coordOK c) :
    parseCoord (encCoord c ++ rest) = some (c, rest) := by
  obtain ⟨hx1, hx2, hy1, hy2⟩ := h
  rw [parseCoord, encCoord, List.append_assoc,
    readN_of_length _ (encInt_length c.1)]
  simp only [Option.bind_eq_bind, Option.some_bind]
  rw [readN_of_length rest (encInt_length c.2)]
  simp [decInt_encInt c.1 hx1 hx2, decInt_encInt c.2 hy1 hy2]

theorem parseCoords_enc (cs : List Coord) (rest : List Nat)
    (h : ∀ c ∈ cs, coordOK c) :
    parseCoords cs.length ((cs.map encCoord).flatten ++ rest) = some (cs, rest) := by
  induction cs generalizing rest with
  | nil => simp [parseCoords]
  | cons c cs ih =>
    rw [List.length_cons, parseCoords, List.map_cons, List.flatten_cons,
      List.append_assoc, parseCoord_encCoord c _ (h c (by simp))]
    simp only [Option.bind_eq_bind, Option.some_bind]
    rw [ih _ (fun x hx => h x (by simp [hx]))]
    rfl

theorem parseRing_encRing (r : List Coord) (rest : List Nat) (h : ringOK r) :
    parseRing (encRing r ++ rest) = some (r, rest) := by
  rw [parseRing, encRing, List.append_assoc, parseU32_encU32 r.length _ h.1]
  simp only [Option.bind_eq_bind, Option.some_bind]
  exact parseCoords_enc r rest h.2

theorem parseRings_enc (rs : List (List Coord)) (rest : List Nat)
    (h : ∀ r ∈ rs, ringOK r) :
    parseRings rs.length ((rs.map encRing).flatten ++ rest) = some (rs, rest) := by
  induction rs generalizing rest with
  | nil => simp [parseRings]
  | cons r rs ih =>
    rw [List.length_cons, parseRings, List.map_cons, List.flatten_cons,
      List.append_assoc, parseRing_encRing r _ (h r (by simp))]
    simp only [Option.bind_eq_bind, Option.some_bind]
    rw [ih _ (fun x hx => h x (by simp [hx]))]
    rfl

theorem parsePoly_encPoly (p : List Coord × List (List Coord)) (rest : List Nat)
    (h : polyOK p) :
    parsePoly (encPoly p ++ rest) = some (p, rest) := by
  obtain ⟨hout, hcnt, hin⟩ := h
  rw [parsePoly, encPoly, List.append_assoc, List.append_assoc,
    parseU32_encU32 _ _ hcnt]
  simp only [Option.bind_eq_bind, Option.some_bind]
  rw [parseRing_encRing p.1 _ hout]
  simp only [Option.bind_eq_bind, Option.some_bind]
  rw [parseRings_enc p.2 rest hin]
  rfl

theorem parsePolys_enc (ps : List (List Coord × List (List Coord))) (rest : List Nat)
    (h : ∀ p ∈ ps, polyOK p) :
    parsePolys ps.length ((ps.map encPoly).flatten ++ rest) = some (ps, rest) := by
  induction ps generalizing rest with
  | nil => simp [parsePolys]
  | cons p ps ih =>
    rw [List.length_cons, parsePolys, List.map_cons, List.flatten_cons,
      List.append_assoc, parsePoly_encPoly p _ (h p (by simp))]
    simp only [Option.bind_eq_bind, Option.some_bind]
    rw [ih _ (fun x hx => h x (by simp [hx]))]
    rfl

instance (c : Coord) : Decidable (coordOK c) := by
  unfold coordOK
  infer_instance

instance (r : List Coord) : Decidable (ringOK r) := by
  unfold ringOK
  infer_instance

instance (p : List Coord × List (List Coord)) : Decidable (polyOK p) := by
  unfold polyOK
  infer_instance

instance (a : ClassifiedArea) : Decidable (areaOK a) := by
  unfold areaOK
  infer_instance

theorem decodeArea_encodeArea (a : ClassifiedArea) (h : areaOK a) :
    decodeArea (encodeArea a) = some a.polys := by
  have h1 : encodeArea a = [1] ++ (encU32 6 ++ (encU32 a.polys.length
      ++ ((a.polys.map encPoly).flatten ++ []))) := by
    rw [encodeArea]
    simp
  rw [h1, decodeArea, readN_of_length _ (by rfl)]
  simp only [Option.bind_eq_bind, Option.some_bind, if_pos]
  rw [parseU32_encU32 6 _ (by norm_num)]
  simp only [Option.bind_eq_bind, Option.some_bind, if_pos]
  rw [parseU32_encU32 a.polys.length _ h.1]
  simp only [Option.bind_eq_bind, Option.some_bind]
  rw [parsePolys_enc a.polys [] h.2]
  simp

/-- C7: for every successfully assembled Area whose emitted payload exists,
decoding the emitted binary geometry reproduces exactly the Area's ring
coordinate structure — which is the assembled grouping with outer rings
normalized counterclockwise and inner rings clockwise. -/
theorem claim7_roundtrip :
    ∀ (segs : List Segment) (a : ClassifiedArea) (bytes : List Nat),
      (assembleArea segs).area = some a →
      emitGeometry (assembleArea segs) = some bytes →
      areaOK a →
      decodeArea bytes = some a.polys := by
  intro segs a bytes h1 h2 h3
  rw [emitGeometry, h1] at h2
  simp only [Option.some_bind, Option.bind_eq_bind] at h2
  rw [emitClassified] at h2
  split at h2
  · exact absurd h2 (by simp)
  · obtain rfl : encodeArea a = bytes := by simpa using h2
    exact decodeArea_encodeArea a h3

theorem claim7_witness :
    decodeArea (encodeArea ⟨[([(0, 0), (1, 0), (1, 1), (0, 1), (0, 0)], [])]⟩)
      = some [([(0, 0), (1, 0), (1, 1), (0, 1), (0, 0)], [])] :=
  claim7_roundtrip [sqC] ⟨[([(0, 0), (1, 0), (1, 1), (0, 1), (0, 0)], [])]⟩
    (encodeArea ⟨[([(0, 0), (1, 0), (1, 1), (0, 1), (0, 0)], [])]⟩)
    (by decide) (by decide) (by decide)
